import Mathlib

/-!
Verification of the component registry and discovery/validation engine of the
shadcn-admin repository.  The TypeScript sources embedded here are:

* `src/registry/component-registry.ts` — the `ComponentMetadata` record type and
  the `ComponentRegistryIndex` class (`buildIndices`, `findByName`, ...);
* `src/registry/agent-api.ts` — the `AgentAPI` class (constructor lookup map,
  `discoverComponents`, `searchComponents`, `getComponent`, `validateProps`,
  `getComponentHealth`);
* `src/registry/validators.ts` — `validatePropsAgainstSchema` and
  `validateDesignTokens`;
* `src/mcp/tools/discovery.ts` — the MCP discovery tool handlers
  (`getComponent` tool, `getSuggestions`, `levenshteinDistance`,
  `discoverComponents` tool, zod input schemas);
* `src/mcp/utils/formatters.ts` — `formatComponentSummary`,
  `formatComponentDetail`.

JavaScript `Map` objects are modelled by functions `String → Option α`
(`Map.set` is pointwise update, `Map.get` is application), which coincides with
the observable `get` behaviour of the source.  JavaScript strings are Lean
`String`s; `toLowerCase` is ASCII lowercasing, which is exact on the registry
data.  Registries are passed explicitly where the source reads a module-level
JSON import.
-/

/-- ASCII lowercasing, modelling JavaScript `String.prototype.toLowerCase` on
the ASCII data stored in the registry. -/
def jsToLower (s : String) : String :=
  ⟨s.data.map Char.toLower⟩

/-- JavaScript `String.prototype.includes`: `needle` occurs as a contiguous
substring of `hay`. -/
def jsIncludes (hay needle : String) : Bool :=
  decide (needle.toList <:+: hay.toList)

/-- JavaScript truthiness of an optional string (`null`/`undefined` and the
empty string are falsy, every other string is truthy). -/
def jsTruthy : Option String → Bool
  | none => false
  | some s => s ≠ ""

/-- One component record of the registry (`ComponentMetadata` in
`component-registry.ts`).  The `schema` and `documentation` fields are
`string` references in the source that may also be `null` in the generated
registry data, hence `Option String` here. -/
structure ComponentMetadata where
  name : String
  category : String
  path : String
  schema : Option String
  documentation : Option String
  tags : List String
  complexity : String
  lastUpdated : String
  version : String
  description : String
  wcagLevel : String
  hasTesting : Bool
  hasStorybook : Bool
  migrationStatus : Option String
  deriving DecidableEq, Repr, Inhabited

/-- The lookup map built in the `AgentAPI` constructor:
`components.forEach(c => map.set(c.name.toLowerCase(), c))`.  A JavaScript
`Map` observed through `get` is a function; `set` overwrites pointwise. -/
def buildComponentMap (components : List ComponentMetadata) :
    String → Option ComponentMetadata :=
  components.foldl
    (fun m c => fun k => if k = jsToLower c.name then some c else m k)
    (fun _ => none)

/-- `AgentAPI.getComponent`: case-insensitive lookup in the constructor map. -/
def getComponent (components : List ComponentMetadata) (name : String) :
    Option ComponentMetadata :=
  buildComponentMap components (jsToLower name)

/-- `AgentAPI.searchComponents`: keep the components whose lowercased name,
description, or some lowercased tag contains the lowercased query. -/
def searchComponents (components : List ComponentMetadata) (query : String) :
    List ComponentMetadata :=
  let lowerQuery := jsToLower query
  components.filter fun c =>
    jsIncludes (jsToLower c.name) lowerQuery ||
    jsIncludes (jsToLower c.description) lowerQuery ||
    c.tags.any fun tag => jsIncludes (jsToLower tag) lowerQuery

theorem jsIncludes_refl (s : String) : jsIncludes s s = true := by
  simp [jsIncludes]

example : jsIncludes "button" "but" = true := by decide

example : jsToLower "Button" = "button" := by decide

/-- The Button record of `componentRegistry` in `component-registry.ts`
(the dependency lists, which no verified operation reads, are omitted). -/
def buttonRecord : ComponentMetadata :=
  { name := "Button"
    category := "atom"
    path := "src/components/atoms/button/Button.tsx"
    schema := some "src/components/atoms/button/Button.schema.json"
    documentation := some "src/components/atoms/button/Button.md"
    tags := ["interactive", "form", "action", "navigation", "clickable"]
    complexity := "simple"
    lastUpdated := "2024-11-17"
    version := "1.0.0"
    description := "A versatile button component with multiple variants and sizes for user interactions"
    wcagLevel := "AA"
    hasTesting := false
    hasStorybook := false
    migrationStatus := none }

/-- A JavaScript `Map` populated left to right retains, for each key, the last
value set: `buildComponentMap` agrees with the last matching record. -/
theorem buildComponentMap_eq (components : List ComponentMetadata) (k : String) :
    buildComponentMap components k =
      (components.filter fun c => jsToLower c.name = k).getLast? := by
  induction components using List.reverseRecOn with
  | nil => rfl
  | append_singleton l c ih =>
      rw [buildComponentMap, List.foldl_append] at *
      rw [List.filter_append]
      by_cases h : jsToLower c.name = k
      · simp [h, List.getLast?_concat]
      · simp [h, Ne.symm h, ih, buildComponentMap]

/-- With pairwise case-insensitively distinct names, the unique record whose
lowercased name matches is the sole survivor of the name filter. -/
theorem filter_lower_name_eq_single (components : List ComponentMetadata)
    (R : ComponentMetadata)
    (huniq : components.Pairwise fun a b => jsToLower a.name ≠ jsToLower b.name)
    (hmem : R ∈ components) :
    (components.filter fun c => jsToLower c.name = jsToLower R.name) = [R] := by
  induction components with
  | nil => cases hmem
  | cons a l ih =>
      rcases List.pairwise_cons.mp huniq with ⟨ha, hl⟩
      rcases List.mem_cons.mp hmem with rfl | hR
      · have : (l.filter fun c => jsToLower c.name = jsToLower R.name) = [] := by
          refine List.filter_eq_nil_iff.mpr fun b hb => ?_
          simpa using (ha b hb).symm
        simp [List.filter_cons, this]
      · have hne : jsToLower a.name ≠ jsToLower R.name := ha R hR
        simp [List.filter_cons, hne, ih hl hR]

/-- C2: for every Record `R` in the store whose names are pairwise
case-insensitively distinct, `getComponent` applied to any string that
lowercases to `R.name`'s lowercasing returns exactly `R`. -/
theorem getComponent_returns_unique_record
    (components : List ComponentMetadata) (R : ComponentMetadata) (s : String)
    (huniq : components.Pairwise fun a b => jsToLower a.name ≠ jsToLower b.name)
    (hmem : R ∈ components) (hs : jsToLower s = jsToLower R.name) :
    getComponent components s = some R := by
  rw [getComponent, buildComponentMap_eq, hs,
    filter_lower_name_eq_single components R huniq hmem]
  rfl

/-- Witness for C2 on the concrete registry entry, queried in mixed case. -/
theorem getComponent_returns_unique_record_witness :
    ([buttonRecord].Pairwise fun a b => jsToLower a.name ≠ jsToLower b.name) ∧
      buttonRecord ∈ [buttonRecord] ∧
      jsToLower "bUtTOn" = jsToLower buttonRecord.name ∧
      getComponent [buttonRecord] "bUtTOn" = some buttonRecord :=
  ⟨by decide, by decide, by decide,
    getComponent_returns_unique_record [buttonRecord] buttonRecord "bUtTOn"
      (by decide) (by decide) (by decide)⟩

/-- The three lookup structures of `ComponentRegistryIndex`
(`component-registry.ts`); the maps are modelled as functions, matching the
observable `get` behaviour, and the per-key array pushes as appends. -/
structure RegistryIndex where
  nameIndex : String → Option ComponentMetadata
  categoryIndex : String → List ComponentMetadata
  tagIndex : String → List ComponentMetadata

/-- `ComponentRegistryIndex.buildIndices`: a single pass over the registry
that sets the name key (overwriting), and pushes the component onto its
category list and onto the list of each of its tags. -/
def buildIndices (registry : List ComponentMetadata) : RegistryIndex :=
  registry.foldl
    (fun idx component =>
      { nameIndex := fun k =>
          if k = jsToLower component.name then some component else idx.nameIndex k
        categoryIndex := fun k =>
          if k = component.category then idx.categoryIndex k ++ [component]
          else idx.categoryIndex k
        tagIndex := fun k =>
          idx.tagIndex k ++ List.replicate (component.tags.count k) component })
    { nameIndex := fun _ => none
      categoryIndex := fun _ => []
      tagIndex := fun _ => [] }

/-- `ComponentRegistryIndex.findByName`: case-insensitive name lookup. -/
def findByName (idx : RegistryIndex) (name : String) :
    Option ComponentMetadata :=
  idx.nameIndex (jsToLower name)

/-- A left fold commutes with a projection that commutes with the step. -/
theorem foldl_proj {α σ τ : Type} (proj : σ → τ) (f : σ → α → σ)
    (g : τ → α → τ) (h : ∀ s c, proj (f s c) = g (proj s) c) :
    ∀ (l : List α) (i : σ), proj (l.foldl f i) = l.foldl g (proj i) := by
  intro l
  induction l with
  | nil => intro i; rfl
  | cons a l ih => intro i; rw [List.foldl_cons, List.foldl_cons, ih, h]

/-- The name index produced by `buildIndices` coincides with the lookup map
the `AgentAPI` constructor builds. -/
theorem buildIndices_nameIndex (registry : List ComponentMetadata) :
    (buildIndices registry).nameIndex = buildComponentMap registry :=
  foldl_proj RegistryIndex.nameIndex _ _ (fun _ _ => rfl) registry _

/-- C1 amended: building the indices from a registry never fails, and name
lookup returns the last record whose lowercased name matches — an earlier
record with a case-insensitively duplicate name is silently overwritten. -/
theorem buildIndices_duplicate_last_wins
    (registry : List ComponentMetadata) (name : String) :
    findByName (buildIndices registry) name =
      (registry.filter fun c => jsToLower c.name = jsToLower name).getLast? := by
  rw [findByName, buildIndices_nameIndex, buildComponentMap_eq]

/-- First half of a duplicate pair: the cataloged name `Button`. -/
def dupFirst : ComponentMetadata :=
  { buttonRecord with description := "the earlier record" }

/-- Second half of a duplicate pair: same name up to case, different data. -/
def dupSecond : ComponentMetadata :=
  { buttonRecord with name := "BUTTON", description := "the later record" }

/-- C1 counterexample: on a registry with two case-insensitively equal names,
index construction succeeds, serves queries, and the later record has
silently overwritten the earlier one — no fatal load error occurs. -/
theorem buildIndices_duplicate_counterexample :
    jsToLower dupFirst.name = jsToLower dupSecond.name ∧
      dupFirst ≠ dupSecond ∧
      findByName (buildIndices [dupFirst, dupSecond]) "Button" = some dupSecond := by
  refine ⟨by decide, by decide, ?_⟩
  decide

/-- C7: keyword search returns exactly the records where the lowercased query
is a substring of the lowercased name, description, or some lowercased tag;
it is invariant under case variation of the query; and it finds a record
named `Button` with the query `but`. -/
theorem searchComponents_substring_caseInsensitive
    (components : List ComponentMetadata) (q q' : String)
    (c : ComponentMetadata) :
    (c ∈ searchComponents components q ↔
      c ∈ components ∧
        (jsIncludes (jsToLower c.name) (jsToLower q) = true ∨
         jsIncludes (jsToLower c.description) (jsToLower q) = true ∨
         ∃ tag ∈ c.tags, jsIncludes (jsToLower tag) (jsToLower q) = true)) ∧
    (jsToLower q = jsToLower q' →
      searchComponents components q = searchComponents components q') ∧
    (c.name = "Button" → c ∈ components →
      c ∈ searchComponents components "but") := by
  refine ⟨?_, ?_, ?_⟩
  · simp [searchComponents, List.mem_filter, List.any_eq_true, or_assoc]
  · intro h
    simp only [searchComponents]
    rw [h]
  · intro hname hmem
    have hinc : jsIncludes (jsToLower c.name) (jsToLower "but") = true := by
      rw [hname]; decide
    simp [searchComponents, List.mem_filter, hmem, hinc]

/-- Witness for C7: the concrete Button registry entry is found by `but` and
by any casing of `button`. -/
theorem searchComponents_substring_caseInsensitive_witness :
    (jsToLower "BUTTON" = jsToLower "button" ∧
      searchComponents [buttonRecord] "BUTTON" =
        searchComponents [buttonRecord] "button") ∧
      (buttonRecord.name = "Button" ∧ buttonRecord ∈ [buttonRecord] ∧
        buttonRecord ∈ searchComponents [buttonRecord] "but") :=
  ⟨⟨by decide,
      (searchComponents_substring_caseInsensitive [buttonRecord] "BUTTON"
        "button" buttonRecord).2.1 (by decide)⟩,
    ⟨rfl, by decide,
      (searchComponents_substring_caseInsensitive [buttonRecord] "but" "but"
        buttonRecord).2.2 rfl (by decide)⟩⟩

/-- The optional filter set accepted by `AgentAPI.discoverComponents`
(`ComponentFilters` in `agent-api.ts`). -/
structure ComponentFilters where
  category : Option String := none
  tags : Option (List String) := none
  complexity : Option String := none
  migrationStatus : Option String := none
  hasSchema : Option Bool := none
  hasDocumentation : Option Bool := none
  hasTesting : Option Bool := none
  deriving Repr

/-- One `if (filters.x) results = results.filter(...)` stage of
`discoverComponents`: filter when the field is supplied, otherwise pass
through. -/
def optFilter {α : Type} (o : Option α)
    (test : α → ComponentMetadata → Bool) (l : List ComponentMetadata) :
    List ComponentMetadata :=
  match o with
  | some v => l.filter (test v)
  | none => l

/-- The tag stage of `discoverComponents`: guarded by
`filters.tags && filters.tags.length > 0`, and keeping components having at
least one of the supplied tags (`filters.tags.some(tag => c.tags.includes(tag))`). -/
def tagsFilter (o : Option (List String)) (l : List ComponentMetadata) :
    List ComponentMetadata :=
  match o with
  | some tags =>
      if tags.length > 0 then
        l.filter fun c => tags.any fun tag => c.tags.contains tag
      else l
  | none => l

/-- The schema-presence test of `discoverComponents`:
`filters.hasSchema ? c.schema !== null && c.schema !== 'pending'
                  : c.schema === null || c.schema === 'pending'`. -/
def hasSchemaTest (b : Bool) (c : ComponentMetadata) : Bool :=
  if b then decide (c.schema ≠ none ∧ c.schema ≠ some "pending")
  else decide (c.schema = none ∨ c.schema = some "pending")

/-- The documentation-presence test of `discoverComponents`, same shape as
the schema one. -/
def hasDocumentationTest (b : Bool) (c : ComponentMetadata) : Bool :=
  if b then decide (c.documentation ≠ none ∧ c.documentation ≠ some "pending")
  else decide (c.documentation = none ∨ c.documentation = some "pending")

/-- `AgentAPI.discoverComponents`: returns a copy of the store when no
filters are given, otherwise applies the stages in source order. -/
def discoverComponents (components : List ComponentMetadata)
    (filters : Option ComponentFilters) : List ComponentMetadata :=
  match filters with
  | none => components
  | some f =>
      let r := components
      let r := optFilter f.category (fun v c => c.category == v) r
      let r := tagsFilter f.tags r
      let r := optFilter f.complexity (fun v c => c.complexity == v) r
      let r := optFilter f.migrationStatus
        (fun v c => c.migrationStatus == some v) r
      let r := optFilter f.hasSchema hasSchemaTest r
      let r := optFilter f.hasDocumentation hasDocumentationTest r
      let r := optFilter f.hasTesting (fun b c => c.hasTesting == b) r
      r

/-- Predicate form of an optional filter stage: omitted means satisfied. -/
def optPred {α : Type} (o : Option α) (test : α → ComponentMetadata → Bool) :
    ComponentMetadata → Bool :=
  match o with
  | some v => test v
  | none => fun _ => true

/-- Predicate form of the tag stage: omitted or empty means satisfied. -/
def tagsPred (o : Option (List String)) : ComponentMetadata → Bool :=
  match o with
  | some tags =>
      if tags.length > 0 then fun c => tags.any fun tag => c.tags.contains tag
      else fun _ => true
  | none => fun _ => true

/-- The conjunction of all stage predicates, in source order. -/
def discoverPred (f : ComponentFilters) (c : ComponentMetadata) : Bool :=
  optPred f.category (fun v c => c.category == v) c &&
  tagsPred f.tags c &&
  optPred f.complexity (fun v c => c.complexity == v) c &&
  optPred f.migrationStatus (fun v c => c.migrationStatus == some v) c &&
  optPred f.hasSchema hasSchemaTest c &&
  optPred f.hasDocumentation hasDocumentationTest c &&
  optPred f.hasTesting (fun b c => c.hasTesting == b) c

theorem optFilter_eq {α : Type} (o : Option α)
    (test : α → ComponentMetadata → Bool) (l : List ComponentMetadata) :
    optFilter o test l = l.filter (optPred o test) := by
  cases o <;> simp [optFilter, optPred]

theorem tagsFilter_eq (o : Option (List String)) (l : List ComponentMetadata) :
    tagsFilter o l = l.filter (tagsPred o) := by
  cases o with
  | none => simp [tagsFilter, tagsPred]
  | some tags =>
      by_cases h : tags.length > 0 <;> simp [tagsFilter, tagsPred, h]

/-- The whole filter pipeline is one pass over the store with the conjunction
of the stage predicates, so results keep the original store order. -/
theorem discoverComponents_eq_filter (components : List ComponentMetadata)
    (f : ComponentFilters) :
    discoverComponents components (some f) =
      components.filter (discoverPred f) := by
  simp only [discoverComponents, optFilter_eq, tagsFilter_eq,
    List.filter_filter]
  apply List.filter_congr
  intro c _
  simp only [discoverPred]
  ac_rfl

/-- Filtering by a disjunction of predicates keeps exactly the members of the
two separate filterings, in the original order. -/
theorem filter_or_eq_union (l : List ComponentMetadata)
    (p q : ComponentMetadata → Bool) :
    l.filter (fun c => p c || q c) =
      l.filter (fun c => decide (c ∈ l.filter p ∨ c ∈ l.filter q)) := by
  apply List.filter_congr
  intro c hc
  simp [List.mem_filter, hc]

/-- The tag predicate for a two-tag list is membership of either tag. -/
theorem tagsPred_pair (a b : String) (c : ComponentMetadata) :
    tagsPred (some [a, b]) c = (c.tags.contains a || c.tags.contains b) := by
  simp [tagsPred]

/-- The tag predicate for a one-tag list is membership of that tag. -/
theorem tagsPred_single (a : String) (c : ComponentMetadata) :
    tagsPred (some [a]) c = c.tags.contains a := by
  simp [tagsPred]

/-- Distributing a disjunction in the second of seven conjuncts. -/
theorem and7_or_distrib : ∀ A T1 T2 C M S D H : Bool,
    (A && (T1 || T2) && C && M && S && D && H) =
      ((A && T1 && C && M && S && D && H) ||
        (A && T2 && C && M && S && D && H)) := by
  decide

/-- Pointwise: the two-tag predicate is the disjunction of the one-tag
predicates, with all other filters fixed. -/
theorem discoverPred_tags_pair (f : ComponentFilters) (a b : String)
    (c : ComponentMetadata) :
    discoverPred { f with tags := some [a, b] } c =
      (discoverPred { f with tags := some [a] } c ||
        discoverPred { f with tags := some [b] } c) := by
  rcases f with ⟨cat, tags, cx, ms, hs, hd, ht⟩
  simp only [discoverPred]
  rw [tagsPred_pair, tagsPred_single a, tagsPred_single b]
  exact and7_or_distrib _ _ _ _ _ _ _ _

/-- C3: with all other filters fixed, filtering by the tag list `[a, b]`
returns exactly the store-ordered union of the results for `[a]` and `[b]`
(tag filtering is any-of), and an empty tag list imposes no tag constraint,
giving the same result as omitting the tags filter. -/
theorem discoverComponents_tags_anyOf (components : List ComponentMetadata)
    (f : ComponentFilters) (a b : String) :
    (discoverComponents components (some { f with tags := some [a, b] }) =
      components.filter fun c =>
        decide
          (c ∈ discoverComponents components (some { f with tags := some [a] }) ∨
            c ∈ discoverComponents components
              (some { f with tags := some [b] }))) ∧
      discoverComponents components (some { f with tags := some [] }) =
        discoverComponents components (some { f with tags := none }) := by
  constructor
  · calc
      discoverComponents components (some { f with tags := some [a, b] }) =
          components.filter (discoverPred { f with tags := some [a, b] }) :=
        discoverComponents_eq_filter components _
      _ = components.filter (fun c =>
            discoverPred { f with tags := some [a] } c ||
              discoverPred { f with tags := some [b] } c) :=
        List.filter_congr fun c _ => discoverPred_tags_pair f a b c
      _ = components.filter (fun c =>
            decide
              (c ∈ components.filter (discoverPred { f with tags := some [a] }) ∨
                c ∈ components.filter
                  (discoverPred { f with tags := some [b] }))) :=
        filter_or_eq_union components _ _
      _ = components.filter (fun c =>
            decide
              (c ∈ discoverComponents components
                  (some { f with tags := some [a] }) ∨
                c ∈ discoverComponents components
                  (some { f with tags := some [b] }))) := by
        simp only [discoverComponents_eq_filter]
  · rw [discoverComponents_eq_filter, discoverComponents_eq_filter]
    apply List.filter_congr
    intro c _
    rcases f with ⟨cat, tags, cx, ms, hs, hd, ht⟩
    rfl

/-- A JavaScript runtime value as supplied in a props object. -/
inductive JSValue where
  | vstr : String → JSValue
  | vnum : Int → JSValue
  | vbool : Bool → JSValue
  | vnull : JSValue
  | vundefined : JSValue
  deriving DecidableEq, Repr

/-- JavaScript `typeof`. -/
def jsTypeof : JSValue → String
  | .vstr _ => "string"
  | .vnum _ => "number"
  | .vbool _ => "boolean"
  | .vnull => "object"
  | .vundefined => "undefined"

/-- One declared property of a schema document (`schema.props[name]`). -/
structure PropDef where
  type : String
  values : Option (List JSValue) := none
  required : Bool := false
  deriving DecidableEq, Repr

/-- A schema document as consumed by `validatePropsAgainstSchema`; only its
`props` section is read, and it may be missing. -/
structure PropSchema where
  props : Option (List (String × PropDef))
  deriving DecidableEq, Repr

/-- One entry of the `errors`/`warnings` lists (`PropValidationError` in
`validators.ts`). -/
structure PropValidationError where
  prop : String
  value : JSValue
  error : String
  expected : Option (List JSValue) := none
  deriving DecidableEq, Repr

/-- The result shape of `validatePropsAgainstSchema`
(`PropValidationResult` in `validators.ts`). -/
structure PropValidationResult where
  valid : Bool
  errors : List PropValidationError
  warnings : List PropValidationError
  deriving DecidableEq, Repr

/-- JavaScript object property access on the schema's `props` record. -/
def objGet (o : List (String × PropDef)) (k : String) : Option PropDef :=
  (o.find? fun p => p.1 == k).map Prod.snd

/-- The error contributions of one supplied prop that is declared in the
schema: the enum check, then the boolean, number and string type checks, in
source order. -/
def propErrors (propName : String) (value : JSValue) (d : PropDef) :
    List PropValidationError :=
  (match d.type == "enum", d.values with
    | true, some vs =>
        if vs.contains value then []
        else [⟨propName, value,
          "Invalid value for prop \"" ++ propName ++ "\"", some vs⟩]
    | _, _ => []) ++
  (if d.type == "boolean" && (jsTypeof value != "boolean") then
    [⟨propName, value, "Prop \"" ++ propName ++ "\" must be a boolean",
      some [.vstr "true", .vstr "false"]⟩]
  else []) ++
  (if d.type == "number" && (jsTypeof value != "number") then
    [⟨propName, value, "Prop \"" ++ propName ++ "\" must be a number", none⟩]
  else []) ++
  (if d.type == "string" && (jsTypeof value != "string") then
    [⟨propName, value, "Prop \"" ++ propName ++ "\" must be a string", none⟩]
  else [])

/-- The `for (const [propName, propValue] of Object.entries(props))` loop of
`validatePropsAgainstSchema`: unknown props warn and continue, known props
contribute their checks' errors. -/
def propsLoop (schemaProps : List (String × PropDef)) :
    List (String × JSValue) →
      List PropValidationError × List PropValidationError
  | [] => ([], [])
  | (propName, propValue) :: rest =>
      let tail := propsLoop schemaProps rest
      match objGet schemaProps propName with
      | none =>
          (tail.1,
            ⟨propName, propValue,
              "Prop not defined in schema (may be a valid HTML attribute)",
              none⟩ :: tail.2)
      | some d => (propErrors propName propValue d ++ tail.1, tail.2)

/-- The required-props pass of `validatePropsAgainstSchema`. -/
def requiredErrors (schemaProps : List (String × PropDef))
    (props : List (String × JSValue)) : List PropValidationError :=
  (schemaProps.filter fun p =>
      p.2.required && !(props.any fun q => q.1 == p.1)).map
    fun p => ⟨p.1, JSValue.vundefined,
      "Required prop \"" ++ p.1 ++ "\" is missing", none⟩

/-- `validatePropsAgainstSchema` (`validators.ts`): trivially valid without a
schema or a `props` section; otherwise the prop loop followed by the
required check, with `valid` defined as emptiness of `errors`. -/
def validatePropsAgainstSchema (schema : Option PropSchema)
    (props : List (String × JSValue)) : PropValidationResult :=
  match schema with
  | none => ⟨true, [], []⟩
  | some s =>
      match s.props with
      | none => ⟨true, [], []⟩
      | some schemaProps =>
          let loop := propsLoop schemaProps props
          let errors := loop.1 ++ requiredErrors schemaProps props
          ⟨errors.isEmpty, errors, loop.2⟩

/-- Every error contributed by a declared prop's checks names that prop. -/
theorem propErrors_prop (n : String) (v : JSValue) (d : PropDef) :
    ∀ e ∈ propErrors n v d, e.prop = n := by
  intro e he
  simp only [propErrors, List.mem_append] at he
  rcases he with ((h | h) | h) | h
  · split at h
    · split at h <;> simp_all
    · simp_all
  · split at h <;> simp_all
  · split at h <;> simp_all
  · split at h <;> simp_all

/-- Every error contributed by the prop loop names a declared prop. -/
theorem propsLoop_errors_declared (sp : List (String × PropDef))
    (props : List (String × JSValue)) :
    ∀ e ∈ (propsLoop sp props).1, ∃ d, objGet sp e.prop = some d := by
  induction props with
  | nil => simp [propsLoop]
  | cons q rest ih =>
      obtain ⟨n, v⟩ := q
      intro e he
      rw [propsLoop] at he
      cases hg : objGet sp n with
      | none =>
          rw [hg] at he
          exact ih e he
      | some d =>
          rw [hg] at he
          rcases List.mem_append.mp he with h | h
          · have := propErrors_prop n v d e h
            rw [this]
            exact ⟨d, hg⟩
          · exact ih e h

/-- A supplied prop that is not declared in the schema is reported in the
warnings list. -/
theorem propsLoop_warning_of_unknown (sp : List (String × PropDef))
    (props : List (String × JSValue)) (p : String × JSValue)
    (hp : p ∈ props) (hu : objGet sp p.1 = none) :
    (⟨p.1, p.2,
        "Prop not defined in schema (may be a valid HTML attribute)", none⟩ :
      PropValidationError) ∈ (propsLoop sp props).2 := by
  induction props with
  | nil => cases hp
  | cons q rest ih =>
      obtain ⟨n, v⟩ := q
      rw [propsLoop]
      rcases List.mem_cons.mp hp with rfl | hp'
      · rw [hu]
        exact List.mem_cons_self _ _
      · cases hg : objGet sp n with
        | none => exact List.mem_cons_of_mem _ (ih hp')
        | some d => exact ih hp'

/-- Every missing-required error names a declared prop. -/
theorem requiredErrors_declared (sp : List (String × PropDef))
    (props : List (String × JSValue)) :
    ∀ e ∈ requiredErrors sp props, ∃ d, objGet sp e.prop = some d := by
  intro e he
  simp only [requiredErrors, List.mem_map] at he
  obtain ⟨p, hp, rfl⟩ := he
  have hmem : p ∈ sp := List.mem_of_mem_filter hp
  have : (sp.find? fun q => q.1 == p.1).isSome := by
    apply List.find?_isSome.mpr
    exact ⟨p, hmem, by simp⟩
  obtain ⟨q, hq⟩ := Option.isSome_iff_exists.mp this
  exact ⟨q.2, by simp [objGet, hq]⟩

/-- C4: the validation result is valid exactly when its error list is empty
(warnings never affect validity); a supplied prop that the schema does not
declare yields a warning and never an error; and a missing schema or a
schema without a `props` section validates trivially with empty errors and
warnings. -/
theorem validatePropsAgainstSchema_spec (schema : Option PropSchema)
    (props : List (String × JSValue)) :
    ((validatePropsAgainstSchema schema props).valid = true ↔
      (validatePropsAgainstSchema schema props).errors = []) ∧
      (∀ s schemaProps, schema = some s → s.props = some schemaProps →
        ∀ p ∈ props, objGet schemaProps p.1 = none →
          (⟨p.1, p.2,
              "Prop not defined in schema (may be a valid HTML attribute)",
              none⟩ :
            PropValidationError) ∈
              (validatePropsAgainstSchema schema props).warnings ∧
            ∀ e ∈ (validatePropsAgainstSchema schema props).errors,
              e.prop ≠ p.1) ∧
      validatePropsAgainstSchema none props = ⟨true, [], []⟩ ∧
      ∀ s : PropSchema, s.props = none →
        validatePropsAgainstSchema (some s) props = ⟨true, [], []⟩ := by
  refine ⟨?_, ?_, rfl, ?_⟩
  · cases schema with
    | none => simp [validatePropsAgainstSchema]
    | some s =>
        cases h : s.props with
        | none => simp [validatePropsAgainstSchema, h]
        | some sp =>
            simp [validatePropsAgainstSchema, h, List.isEmpty_iff]
  · rintro s sp rfl hsp p hp hu
    simp only [validatePropsAgainstSchema, hsp]
    refine ⟨propsLoop_warning_of_unknown sp props p hp hu, ?_⟩
    intro e he
    rcases List.mem_append.mp he with h | h
    · obtain ⟨d, hd⟩ := propsLoop_errors_declared sp props e h
      intro hcontra
      rw [hcontra, hu] at hd
      cases hd
    · obtain ⟨d, hd⟩ := requiredErrors_declared sp props e h
      intro hcontra
      rw [hcontra, hu] at hd
      cases hd
  · intro s h
    simp [validatePropsAgainstSchema, h]

/-- The `variant` enum prop of the Button schema document
(`Button.schema.json`), as used in the spec's validation scenario. -/
def variantPropDef : PropDef :=
  { type := "enum"
    values := some [.vstr "default", .vstr "destructive"]
    required := false }

/-- A schema document declaring only the `variant` enum prop. -/
def variantSchema : PropSchema :=
  ⟨some [("variant", variantPropDef)]⟩

/-- Witness for C4: an undeclared prop warns and never errs on a concrete
schema. -/
theorem validatePropsAgainstSchema_spec_witness :
    ("unknownProp", JSValue.vstr "x") ∈ [("unknownProp", JSValue.vstr "x")] ∧
      objGet [("variant", variantPropDef)] "unknownProp" = none ∧
      ((⟨"unknownProp", JSValue.vstr "x",
          "Prop not defined in schema (may be a valid HTML attribute)",
          none⟩ :
        PropValidationError) ∈
          (validatePropsAgainstSchema (some variantSchema)
            [("unknownProp", JSValue.vstr "x")]).warnings ∧
        ∀ e ∈ (validatePropsAgainstSchema (some variantSchema)
            [("unknownProp", JSValue.vstr "x")]).errors,
          e.prop ≠ "unknownProp") :=
  ⟨by decide, by decide,
    (validatePropsAgainstSchema_spec (some variantSchema)
        [("unknownProp", JSValue.vstr "x")]).2.1 variantSchema
      [("variant", variantPropDef)] rfl rfl ("unknownProp", JSValue.vstr "x")
      (by decide) (by decide)⟩

/-- The error shape of `AgentAPI` validation results (`ValidationError` in
`agent-api.ts`, whose first field is called `field`). -/
structure ValidationError where
  field : String
  value : JSValue
  error : String
  expected : Option (List JSValue) := none
  deriving DecidableEq, Repr

/-- The result shape of `AgentAPI.validateProps` (`ValidationResult`). -/
structure ValidationResult where
  valid : Bool
  errors : List ValidationError
  deriving DecidableEq, Repr

/-- `AgentAPI.validateProps`: a missing component is an error; a falsy or
`pending` schema reference validates trivially; the only schema-based path
is the hard-coded `Button` branch, whose synchronously `require`d schema is
passed in as `buttonSchema` (`none` models the load throwing, which the
source catches and skips); every other component falls through to trivially
valid.  The Button branch returns the `validatePropsAgainstSchema` result,
rendered in the `field`-named error shape. -/
def validateProps (components : List ComponentMetadata)
    (buttonSchema : Option PropSchema) (componentName : String)
    (props : List (String × JSValue)) : ValidationResult :=
  match getComponent components componentName with
  | none =>
      ⟨false, [⟨"component", .vstr componentName,
        "Component not found in registry", none⟩]⟩
  | some component =>
      if jsTruthy component.schema = false ∨ component.schema = some "pending"
      then ⟨true, []⟩
      else if component.name = "Button" then
        match buttonSchema with
        | some s =>
            let r := validatePropsAgainstSchema (some s) props
            ⟨r.valid,
              r.errors.map fun e => ⟨e.prop, e.value, e.error, e.expected⟩⟩
        | none => ⟨true, []⟩
      else ⟨true, []⟩

/-- C10: whenever the looked-up component is not named exactly `Button`,
`validateProps` returns valid with no errors, for every supplied prop map
and every loadable Button schema. -/
theorem validateProps_nonButton_always_valid
    (components : List ComponentMetadata) (buttonSchema : Option PropSchema)
    (name : String) (props : List (String × JSValue))
    (component : ComponentMetadata)
    (hfound : getComponent components name = some component)
    (hname : component.name ≠ "Button") :
    validateProps components buttonSchema name props = ⟨true, []⟩ := by
  simp [validateProps, hfound, hname]

/-- The Card record: same shape as the Button entry, different name, with a
non-pending schema reference. -/
def cardRecord : ComponentMetadata :=
  { buttonRecord with
    name := "Card"
    schema := some "src/components/molecules/card/Card.schema.json" }

/-- Witness for C10: on a cataloged `Card` with a real schema reference,
props that would fail the Button enum check still validate as valid. -/
theorem validateProps_nonButton_always_valid_witness :
    getComponent [cardRecord] "Card" = some cardRecord ∧
      cardRecord.name ≠ "Button" ∧
      validateProps [cardRecord] (some variantSchema) "Card"
          [("variant", JSValue.vstr "not-a-variant")] =
        ⟨true, []⟩ :=
  ⟨by decide, by decide,
    validateProps_nonButton_always_valid [cardRecord] (some variantSchema)
      "Card" [("variant", JSValue.vstr "not-a-variant")] cardRecord
      (by decide) (by decide)⟩

/-- Inner loop of the `levenshteinDistance` dynamic programme in
`discovery.ts`: walks one row, consuming the previous row pairwise;
`p0`/`p1` are the diagonal and upper entries, `cur` the entry just
computed to the left. -/
def levRowAux (bc : Char) : List Char → List Nat → Nat → List Nat
  | a :: as, p0 :: rest, cur =>
      let p1 := rest.headD 0
      let v := if a = bc then p0 else min (min p0 cur) p1 + 1
      v :: levRowAux bc as rest v
  | _, _, _ => []

/-- One full row of the dynamic programme; the row for `i` starts with `i`,
one more than the previous row's head. -/
def levNextRow (as : List Char) (bc : Char) (prev : List Nat) : List Nat :=
  let h := prev.headD 0 + 1
  h :: levRowAux bc as prev h

/-- `levenshteinDistance(a, b)` from `discovery.ts`: row 0 is `0..a.length`,
each character of `b` produces the next row, and the answer is
`matrix[b.length][a.length]`, the last entry of the final row. -/
def levenshteinDistance (a b : String) : Nat :=
  let as := a.toList
  let final := b.toList.foldl (fun prev bc => levNextRow as bc prev)
    (List.range (as.length + 1))
  final.getLastD 0

/-- `getSuggestions` in `discovery.ts`: filter the whole store for names
that contain the query, are contained by it, or are within edit distance 3
(all lowercased), take the first five, and report their names. -/
def getSuggestions (components : List ComponentMetadata) (name : String) :
    List String :=
  let lowerName := jsToLower name
  ((components.filter fun c =>
      jsIncludes (jsToLower c.name) lowerName ||
      jsIncludes lowerName (jsToLower c.name) ||
      decide (levenshteinDistance (jsToLower c.name) lowerName ≤ 3)).take
    5).map (·.name)

/-- The detailed view produced by `formatComponentDetail` in
`formatters.ts` (the dependency sub-object is omitted along with the
dependency lists of the record model). -/
structure ComponentDetail where
  name : String
  category : String
  path : String
  description : String
  tags : List String
  complexity : String
  version : String
  lastUpdated : String
  wcagLevel : String
  schema : Option String
  documentation : Option String
  hasTesting : Bool
  hasStorybook : Bool
  migrationStatus : String
  deriving DecidableEq, Repr

/-- `formatComponentDetail`: passes fields through, collapsing falsy
`schema`/`documentation` to null and a falsy migration status to
`pending`. -/
def formatComponentDetail (component : ComponentMetadata) : ComponentDetail :=
  { name := component.name
    category := component.category
    path := component.path
    description := component.description
    tags := component.tags
    complexity := component.complexity
    version := component.version
    lastUpdated := component.lastUpdated
    wcagLevel := component.wcagLevel
    schema := if jsTruthy component.schema then component.schema else none
    documentation :=
      if jsTruthy component.documentation then component.documentation
      else none
    hasTesting := component.hasTesting
    hasStorybook := component.hasStorybook
    migrationStatus :=
      match component.migrationStatus with
      | some s => if s = "" then "pending" else s
      | none => "pending" }

/-- The result of the `get_component` MCP tool: either the formatted detail
or the `COMPONENT_NOT_FOUND` error object with message and suggestions. -/
inductive GetComponentResult where
  | found : ComponentDetail → GetComponentResult
  | notFound : String → String → List String → GetComponentResult
  deriving DecidableEq, Repr

/-- The `getComponent` tool handler in `discovery.ts`. -/
def getComponentTool (components : List ComponentMetadata) (name : String) :
    GetComponentResult :=
  match getComponent components name with
  | none =>
      .notFound "COMPONENT_NOT_FOUND"
        ("Component \"" ++ name ++ "\" not found in registry")
        (getSuggestions components name)
  | some component => .found (formatComponentDetail component)

/-- C5: an unmatched name yields the `COMPONENT_NOT_FOUND` error whose
suggestions hold at most five entries, each the name of a cataloged record
that contains the lowercased query, is contained by it, or is within
Levenshtein distance 3 of it, listed in original store order. -/
theorem getComponentTool_notFound_suggestions
    (components : List ComponentMetadata) (name : String)
    (hnone : getComponent components name = none) :
    getComponentTool components name =
      .notFound "COMPONENT_NOT_FOUND"
        ("Component \"" ++ name ++ "\" not found in registry")
        (getSuggestions components name) ∧
      (getSuggestions components name).length ≤ 5 ∧
      (∀ s ∈ getSuggestions components name, ∃ c ∈ components,
        c.name = s ∧
          (jsIncludes (jsToLower c.name) (jsToLower name) = true ∨
            jsIncludes (jsToLower name) (jsToLower c.name) = true ∨
            levenshteinDistance (jsToLower c.name) (jsToLower name) ≤ 3)) ∧
      (getSuggestions components name).Sublist (components.map (·.name)) := by
  refine ⟨by simp [getComponentTool, hnone], ?_, ?_, ?_⟩
  · simp only [getSuggestions, List.length_map]
    exact List.length_take_le 5 _
  · intro s hs
    simp only [getSuggestions, List.mem_map] at hs
    obtain ⟨c, hc, rfl⟩ := hs
    have hc' := List.mem_of_mem_take hc
    rw [List.mem_filter] at hc'
    refine ⟨c, hc'.1, rfl, ?_⟩
    have := hc'.2
    simp only [Bool.or_eq_true, decide_eq_true_eq] at this
    tauto
  · simp only [getSuggestions]
    exact List.Sublist.map _ ((List.take_sublist 5 _).trans
      (List.filter_sublist _))

/-- Witness for C5: on the one-record registry, the misspelled query
`Buttonx` is not found and suggestions obey the bound. -/
theorem getComponentTool_notFound_suggestions_witness :
    getComponent [buttonRecord] "Buttonx" = none ∧
      (getComponentTool [buttonRecord] "Buttonx" =
        .notFound "COMPONENT_NOT_FOUND"
          "Component \"Buttonx\" not found in registry"
          (getSuggestions [buttonRecord] "Buttonx") ∧
        (getSuggestions [buttonRecord] "Buttonx").length ≤ 5 ∧
        (∀ s ∈ getSuggestions [buttonRecord] "Buttonx",
          ∃ c ∈ [buttonRecord], c.name = s ∧
            (jsIncludes (jsToLower c.name) (jsToLower "Buttonx") = true ∨
              jsIncludes (jsToLower "Buttonx") (jsToLower c.name) = true ∨
              levenshteinDistance (jsToLower c.name)
                  (jsToLower "Buttonx") ≤ 3)) ∧
        (getSuggestions [buttonRecord] "Buttonx").Sublist
          ([buttonRecord].map (·.name))) :=
  ⟨by decide,
    getComponentTool_notFound_suggestions [buttonRecord] "Buttonx"
      (by decide)⟩

/-- The health report shape (`ComponentHealth` in `agent-api.ts`). -/
structure ComponentHealth where
  name : String
  status : String
  hasTests : Bool
  hasStorybook : Bool
  hasSchema : Bool
  hasDocumentation : Bool
  importCount : Nat
  lastUpdated : String
  coverage : Nat
  issues : List String
  migrationStatus : String
  deriving DecidableEq, Repr

/-- `AgentAPI.getComponentHealth`: `null` for unknown components, otherwise
the issue list (falsy-or-pending schema/documentation, missing tests and
stories), the thresholded status, and the derived booleans
`!!schema && schema !== 'pending'`. -/
def getComponentHealth (components : List ComponentMetadata)
    (componentName : String) : Option ComponentHealth :=
  match getComponent components componentName with
  | none => none
  | some component =>
      let issues :=
        (if jsTruthy component.schema = false ∨
            component.schema = some "pending" then
          ["Missing component schema"]
        else []) ++
        (if jsTruthy component.documentation = false ∨
            component.documentation = some "pending" then
          ["Missing documentation"]
        else []) ++
        (if component.hasTesting = false then ["No unit tests"] else []) ++
        (if component.hasStorybook = false then ["No Storybook stories"]
        else [])
      let migrationStatus :=
        match component.migrationStatus with
        | some s => if s = "" then "pending" else s
        | none => "pending"
      let status :=
        if issues.length > 3 then "error"
        else if issues.length > 0 then "warning"
        else "healthy"
      some
        { name := component.name
          status := status
          hasTests := component.hasTesting
          hasStorybook := component.hasStorybook
          hasSchema :=
            jsTruthy component.schema &&
              !(component.schema == some "pending")
          hasDocumentation :=
            jsTruthy component.documentation &&
              !(component.documentation == some "pending")
          importCount := 0
          lastUpdated := component.lastUpdated
          coverage := 0
          issues := issues
          migrationStatus := migrationStatus }

/-- The summary shape of `formatComponentSummary` (`formatters.ts`). -/
structure ComponentSummary where
  name : String
  category : String
  description : String
  tags : List String
  complexity : String
  hasSchema : Bool
  hasDocumentation : Bool
  path : String
  wcagLevel : String
  deriving DecidableEq, Repr

/-- `formatComponentSummary`: derives `hasSchema`/`hasDocumentation` by raw
truthiness, `Boolean(component.schema)`. -/
def formatComponentSummary (component : ComponentMetadata) :
    ComponentSummary :=
  { name := component.name
    category := component.category
    description := component.description
    tags := component.tags
    complexity := component.complexity
    hasSchema := jsTruthy component.schema
    hasDocumentation := jsTruthy component.documentation
    path := component.path
    wcagLevel := component.wcagLevel }

/-- The response shape of the `discover_components` tool. -/
structure DiscoverOutput where
  count : Nat
  totalMatches : Nat
  components : List ComponentSummary
  deriving DecidableEq, Repr

/-- The `discoverComponents` tool handler in `discovery.ts`: forwards the
five filter fields its input schema declares, truncates to
`input.limit || 20`, and formats each kept record as a summary. -/
def discoverComponentsTool (store : List ComponentMetadata)
    (category : Option String) (tags : Option (List String))
    (complexity : Option String) (hasSchema : Option Bool)
    (hasDocumentation : Option Bool) (limit : Option Nat) : DiscoverOutput :=
  let comps := discoverComponents store
    (some
      { category := category
        tags := tags
        complexity := complexity
        hasSchema := hasSchema
        hasDocumentation := hasDocumentation })
  let effLimit :=
    match limit with
    | some n => if n = 0 then 20 else n
    | none => 20
  let limited := comps.take effLimit
  { count := limited.length
    totalMatches := comps.length
    components := limited.map formatComponentSummary }

/-- A record whose schema and documentation references are the `pending`
sentinel. -/
def pendingRecord : ComponentMetadata :=
  { buttonRecord with
    name := "Pending"
    schema := some "pending"
    documentation := some "pending" }

/-- A record with absent schema and documentation references. -/
def absentRecord : ComponentMetadata :=
  { buttonRecord with
    name := "Absent"
    schema := none
    documentation := none }

/-- C6: the discovery filter and the health report treat a `pending`
reference as absent, but `formatComponentSummary` derives
`hasSchema`/`hasDocumentation` by raw truthiness, so the same `pending`
record that the `hasSchema = false` filter keeps is then summarised with
`hasSchema = true` — unlike a record with an absent reference. -/
theorem formatComponentSummary_pending_inconsistent :
    discoverComponents [pendingRecord]
        (some { hasSchema := some false }) = [pendingRecord] ∧
      (getComponentHealth [pendingRecord] "Pending").map (·.hasSchema) =
        some false ∧
      (getComponentHealth [pendingRecord] "Pending").map
          (·.hasDocumentation) = some false ∧
      (formatComponentSummary pendingRecord).hasSchema = true ∧
      (formatComponentSummary pendingRecord).hasDocumentation = true ∧
      (formatComponentSummary absentRecord).hasSchema = false ∧
      (formatComponentSummary absentRecord).hasDocumentation = false ∧
      (discoverComponentsTool [pendingRecord] none none none (some false)
          none none).components.map (·.hasSchema) = [true] := by
  refine ⟨?_, by decide, by decide, by decide, by decide, by decide,
    by decide, ?_⟩ <;> decide

/-- The response shape of one `search_components` result entry
(`formatSearchResult` in `formatters.ts`). -/
structure SearchResultEntry where
  name : String
  description : String
  relevance : String
  category : String
  deriving DecidableEq, Repr

/-- `formatSearchResult`: relevance defaults to `description`, upgraded to
`name` on a name hit, else `tag` on a tag hit. -/
def formatSearchResult (component : ComponentMetadata) (query : String) :
    SearchResultEntry :=
  let lowerQuery := jsToLower query
  let relevance :=
    if jsIncludes (jsToLower component.name) lowerQuery then "name"
    else if component.tags.any fun tag =>
        jsIncludes (jsToLower tag) lowerQuery then "tag"
    else "description"
  { name := component.name
    description := component.description
    relevance := relevance
    category := component.category }

/-- The response shape of the `search_components` tool. -/
structure SearchOutput where
  query : String
  count : Nat
  results : List SearchResultEntry
  deriving DecidableEq, Repr

/-- The `searchComponents` tool handler in `discovery.ts`: searches, takes
`input.limit || 10`, formats with relevance. -/
def searchComponentsHandler (store : List ComponentMetadata) (query : String)
    (limit : Option Nat) : SearchOutput :=
  let comps := searchComponents store query
  let effLimit :=
    match limit with
    | some n => if n = 0 then 10 else n
    | none => 10
  let limited := comps.take effLimit
  { query := query
    count := limited.length
    results := limited.map fun c => formatSearchResult c query }

/-- The outcome of calling the `search_components` tool through the MCP
server: either the handler's output or an input-validation error. -/
inductive McpSearchResult where
  | ok : SearchOutput → McpSearchResult
  | inputError : String → McpSearchResult
  deriving DecidableEq, Repr

/-- Modelled from the spec: the MCP server-side dispatch, which validates
tool arguments against the tool's declared zod input schema before the
handler runs, is part of the protocol SDK and not of this repository; the
repository declares `query: z.string().min(1)` in `searchComponentsSchema`
(`discovery.ts`), so a query shorter than one character is rejected as an
input-validation error and the handler is never invoked. -/
def mcpSearchComponents (store : List ComponentMetadata) (query : String)
    (limit : Option Nat) : McpSearchResult :=
  if query.length ≥ 1 then .ok (searchComponentsHandler store query limit)
  else .inputError "String must contain at least 1 character(s)"

/-- C9: the empty keyword query is rejected by the declared minimum length
of one, producing an input-validation error and never a result list. -/
theorem mcpSearchComponents_rejects_empty (store : List ComponentMetadata)
    (limit : Option Nat) :
    mcpSearchComponents store "" limit =
      .inputError "String must contain at least 1 character(s)" := by
  rfl

/-- A character of the regex class `\w` (`[A-Za-z0-9_]`). -/
def isWordChar (c : Char) : Bool :=
  c.isAlpha || c.isDigit || c = '_'

/-- The body `\w+-\d+` of the hard-coded-colour regex, matched greedily at
the start of `l`: a maximal nonempty word run, a dash, a nonempty digit run
(`\w` never matches `-`, so greedy matching needs no backtracking). -/
def matchColorBody (l : List Char) : Option (List Char) :=
  let w := l.takeWhile isWordChar
  match w, l.dropWhile isWordChar with
  | _ :: _, '-' :: r2 =>
      match r2.takeWhile Char.isDigit with
      | [] => none
      | d => some (w ++ '-' :: d)
  | _, _ => none

/-- One alternative of `(bg|text|border)-` followed by the body, matched at
the start of `l`; returns the whole match and the body capture. -/
def matchColorAlt (p : List Char) (l : List Char) :
    Option (List Char × List Char) :=
  if p.isPrefixOf l then
    match matchColorBody (l.drop p.length) with
    | some b => some (p ++ b, b)
    | none => none
  else none

/-- The colour pattern at the start of `l`; the three prefixes are mutually
exclusive, so trying them in order is the regex alternation. -/
def matchColorAt (l : List Char) : Option (List Char × List Char) :=
  (matchColorAlt "bg-".toList l).orElse fun _ =>
    (matchColorAlt "text-".toList l).orElse fun _ =>
      matchColorAlt "border-".toList l

/-- The global scan of `/(bg|text|border)-(\w+-\d+)/g` over the class
string: like the JS `exec` loop, a successful match emits
`(match[0], match[2])` and resumes at the match end (`lastIndex`, modelled
by the skip counter), a failure advances one position. -/
def scanColors : List Char → Nat → List (List Char × List Char)
  | [], _ => []
  | _ :: rest, skip + 1 => scanColors rest skip
  | l@(_ :: rest), 0 =>
      match matchColorAt l with
      | some (m0, m2) => (m0, m2) :: scanColors rest (m0.length - 1)
      | none => scanColors rest 0

/-- The bracket pattern `\[([^\]]+)\]` at the start of `l`: an opening
bracket, a maximal nonempty run of non-`]` characters, a closing bracket. -/
def matchBracketAt : List Char → Option (List Char)
  | '[' :: rest =>
      match rest.takeWhile (· ≠ ']'), rest.dropWhile (· ≠ ']') with
      | _ :: _, ']' :: _ =>
          some ('[' :: rest.takeWhile (· ≠ ']') ++ [']'])
      | _, _ => none
  | _ => none

/-- The global scan of `/\[([^\]]+)\]/g`, with the same `lastIndex`
behaviour as `scanColors`. -/
def scanBrackets : List Char → Nat → List (List Char)
  | [], _ => []
  | _ :: rest, skip + 1 => scanBrackets rest skip
  | l@(_ :: rest), 0 =>
      match matchBracketAt l with
      | some m0 => m0 :: scanBrackets rest (m0.length - 1)
      | none => scanBrackets rest 0

/-- The result shape of `validateDesignTokens` (`validators.ts`). -/
structure DesignTokenResult where
  valid : Bool
  hardCodedValues : List String
  warnings : List String
  deriving DecidableEq, Repr

/-- The excluded capture bodies of the colour check. -/
def excludedColorBody (m2 : String) : Bool :=
  m2 == "inherit" || m2 == "current" || m2 == "transparent"

/-- `validateDesignTokens` (`validators.ts`): collect every colour match
whose capture is not excluded and every bracketed arbitrary value, with one
warning string each; the result is valid exactly when nothing was
collected. -/
def validateDesignTokens (className : String) : DesignTokenResult :=
  let colorMatches := (scanColors className.toList 0).filter fun m =>
    !excludedColorBody ⟨m.2⟩
  let colorValues := colorMatches.map fun m => (⟨m.1⟩ : String)
  let colorWarnings := colorMatches.map fun m =>
    "Hard-coded color found: \"" ++ (⟨m.1⟩ : String) ++
      "\". Use semantic tokens instead."
  let arbValues := (scanBrackets className.toList 0).map fun m =>
    (⟨m⟩ : String)
  let arbWarnings := arbValues.map fun s =>
    "Arbitrary value found: \"" ++ s ++ "\". Use design tokens instead."
  let hard := colorValues ++ arbValues
  { valid := hard.isEmpty
    hardCodedValues := hard
    warnings := colorWarnings ++ arbWarnings }

/-- C8: the styling check is invalid exactly when `hardCodedValues` is
non-empty; the collected values are the non-excluded colour matches
followed by the bracketed arbitrary values; `bg-blue-500` is flagged and
`bg-primary` is clean. -/
theorem validateDesignTokens_spec (className : String) :
    ((validateDesignTokens className).valid = false ↔
      (validateDesignTokens className).hardCodedValues ≠ []) ∧
      (validateDesignTokens className).hardCodedValues =
        ((scanColors className.toList 0).filter fun m =>
            !excludedColorBody ⟨m.2⟩).map (fun m => (⟨m.1⟩ : String)) ++
          (scanBrackets className.toList 0).map (fun m => (⟨m⟩ : String)) ∧
      validateDesignTokens "bg-blue-500" =
        ⟨false, ["bg-blue-500"],
          ["Hard-coded color found: \"bg-blue-500\". Use semantic tokens instead."]⟩ ∧
      validateDesignTokens "bg-primary" = ⟨true, [], []⟩ := by
  refine ⟨?_, rfl, by decide, by decide⟩
  simp only [validateDesignTokens]
  constructor
  · intro h
    intro hnil
    rw [hnil] at h
    simp at h
  · intro h
    cases hv : ((scanColors className.toList 0).filter fun m =>
        !excludedColorBody ⟨m.2⟩).map (fun m => (⟨m.1⟩ : String)) ++
          (scanBrackets className.toList 0).map (fun m => (⟨m⟩ : String)) with
    | nil => exact absurd hv h
    | cons x xs => simp [hv]
